import Mathlib

/-!
Verification of the rignite boot-and-recovery firmware core against its
specification.  The Rust sources are shallowly embedded over `List Nat`
byte buffers: machine integers become `Nat` (with an explicit `% 2 ^ 64`
where the source relies on `u64` wrapping arithmetic), fallible code
returns `Except`/`Option`, and firmware I/O is replaced by explicit
transport / oracle parameters.

Embedded components:
  * `src/rbc.rs`    - `ConfigView::new`, `AtomIterator::next`, typed accessors
  * `src/fs/btrfs.rs` - chunk-map loading and `logical_to_physical`
  * `src/boot/mod.rs` - `validate_kernel_pe`, `load_file2_initrd`,
    the directory-walk of `boot_linux_from_drive`
  * `src/rdf/mod.rs`  - the RDF receive path of `RdfManager::download_image`
-/

namespace Rignite

/-! ## Little-endian byte readers and writers

`readU16`/`readU32`/`readU64` mirror `uNN::from_le_bytes` applied to a
slice of the buffer; out-of-range indices default to 0 but every use in
the embedded code is guarded by the same bounds checks as the source.
`le16`/`le32`/`le64` mirror `uNN::to_le_bytes`. -/

def readU16 (d : List Nat) (i : Nat) : Nat :=
  d.getD i 0 + 256 * d.getD (i + 1) 0

def readU32 (d : List Nat) (i : Nat) : Nat :=
  d.getD i 0 + 256 * (d.getD (i + 1) 0 + 256 * (d.getD (i + 2) 0 + 256 * d.getD (i + 3) 0))

def readU64 (d : List Nat) (i : Nat) : Nat :=
  d.getD i 0 + 256 * (d.getD (i + 1) 0 + 256 * (d.getD (i + 2) 0 + 256 * (d.getD (i + 3) 0 +
    256 * (d.getD (i + 4) 0 + 256 * (d.getD (i + 5) 0 + 256 * (d.getD (i + 6) 0 +
    256 * d.getD (i + 7) 0))))))

def le16 (n : Nat) : List Nat := [n % 256, n / 256 % 256]

def le32 (n : Nat) : List Nat :=
  [n % 256, n / 256 % 256, n / 2 ^ 16 % 256, n / 2 ^ 24 % 256]

def le64 (n : Nat) : List Nat :=
  [n % 256, n / 256 % 256, n / 2 ^ 16 % 256, n / 2 ^ 24 % 256,
   n / 2 ^ 32 % 256, n / 2 ^ 40 % 256, n / 2 ^ 48 % 256, n / 2 ^ 56 % 256]

/-! ## RBC binary config (`src/rbc.rs`) -/

/-- Error type of `src/rbc.rs` (the variants the embedded code can produce). -/
inductive RbcError
  | BufferTooSmall
  | InvalidMagic
  | UnsupportedVersion
  | InvalidSize
  | Utf8Error
  deriving DecidableEq, Repr

/-- `RBC_MAGIC`: the bytes of the string RGN!. -/
def RBC_MAGIC : List Nat := [0x52, 0x47, 0x4E, 0x21]

/-- `ConfigView::new` (src/rbc.rs:191-217): validates the 16-byte header and
returns the view, which borrows exactly `data[0..total_size]`. -/
def ConfigView_new (data : List Nat) : Except RbcError (List Nat) :=
  if data.length < 16 then .error .BufferTooSmall
  else if data.take 4 ≠ RBC_MAGIC then .error .InvalidMagic
  else if readU16 data 4 ≠ 1 then .error .UnsupportedVersion
  else if data.length < readU32 data 6 then .error .InvalidSize
  else .ok (data.take (readU32 data 6))

/-- One step of `AtomIterator::next` (src/rbc.rs:314-349), iterated with
explicit fuel.  Atoms are `(raw tag, value bytes)` pairs; `Tag::from` on the
raw `u16` is injective, so raw-tag equality models `Tag` equality. -/
def atomsFromAux (d : List Nat) : Nat → Nat → List (Nat × List Nat)
  | _, 0 => []
  | off, fuel + 1 =>
    if off + 4 > d.length then []
    else
      let tag := readU16 d off
      let len := readU16 d (off + 2)
      if off + 4 + len > d.length then []
      else (tag, (d.drop (off + 4)).take len) :: atomsFromAux d (off + 4 + len) fuel

/-- `ConfigView::atoms` collected into a list.  Every yielded atom advances
the offset by at least 4, so `length + 1` units of fuel always suffice. -/
def atoms (viewData : List Nat) : List (Nat × List Nat) :=
  atomsFromAux viewData 16 (viewData.length + 1)

/-- `ConfigView::find_atom`: first atom whose decoded tag matches. -/
def find_atom (viewData : List Nat) (target : Nat) : Option (List Nat) :=
  ((atoms viewData).find? (fun p => p.1 == target)).map Prod.snd

/-- `ConfigView::get_main_uuid`: tag 0x01, exact length 16. -/
def get_main_uuid (v : List Nat) : Option (List Nat) :=
  (find_atom v 0x01).bind fun val => if val.length = 16 then some val else none

/-- `ConfigView::get_main_fs_type`: tag 0x02, exact length 2. -/
def get_main_fs_type (v : List Nat) : Option Nat :=
  (find_atom v 0x02).bind fun val => if val.length = 2 then some (readU16 val 0) else none

/-- `ConfigView::get_main_kernel_params`: tag 0x03, UTF-8 validated.  The
validator (`core::str::from_utf8`) is external library code and is passed in
as a parameter. -/
def get_main_kernel_params (utf8ok : List Nat → Bool) (v : List Nat) :
    Except RbcError (Option (List Nat)) :=
  match find_atom v 0x03 with
  | some bytes => if utf8ok bytes then .ok (some bytes) else .error .Utf8Error
  | none => .ok none

/-- `ConfigView::get_recovery_uuid`: tag 0x10, exact length 16. -/
def get_recovery_uuid (v : List Nat) : Option (List Nat) :=
  (find_atom v 0x10).bind fun val => if val.length = 16 then some val else none

/-- `ConfigView::get_recovery_fs_type`: tag 0x11, exact length 2. -/
def get_recovery_fs_type (v : List Nat) : Option Nat :=
  (find_atom v 0x11).bind fun val => if val.length = 2 then some (readU16 val 0) else none

/-- `ConfigView::get_recovery_kernel_params`: tag 0x12, UTF-8 validated. -/
def get_recovery_kernel_params (utf8ok : List Nat → Bool) (v : List Nat) :
    Except RbcError (Option (List Nat)) :=
  match find_atom v 0x12 with
  | some bytes => if utf8ok bytes then .ok (some bytes) else .error .Utf8Error
  | none => .ok none

/-- `ConfigView::get_signature`: tag 0xFF, raw bytes. -/
def get_signature (v : List Nat) : Option (List Nat) :=
  find_atom v 0xFF

/-- TLV serialisation of one atom, as emitted by the companion CLI
(rbc_cli/src/main.rs:117-136): tag `u16` le, length `u16` le, value bytes. -/
def encodeAtom (p : Nat × List Nat) : List Nat :=
  le16 p.1 ++ le16 p.2.length ++ p.2

/-- A well-formed RBC blob for a given atom list, byte for byte what
rbc_cli/src/main.rs:88-136 serialises: magic, version 1, total size,
atom count, 4 reserved zero bytes, then the TLV payload. -/
def rbcBlob (atomList : List (Nat × List Nat)) : List Nat :=
  RBC_MAGIC ++ le16 1 ++ le32 (16 + ((atomList.map encodeAtom).flatten).length) ++
    le16 atomList.length ++ [0, 0, 0, 0] ++ (atomList.map encodeAtom).flatten

/-- A two-atom blob (a 16-byte UUID atom and an empty signature atom),
byte for byte what the companion CLI emits: `total_size = 40`,
`atom_count = 2`. -/
def rbcTwoAtomBlob : List Nat :=
  rbcBlob [(0x01, List.replicate 16 0xAB), (0xFF, [])]

/-! ## Btrfs chunk map (`src/fs/btrfs.rs`) -/

/-- `2 ^ 64`: modulus of the `u64` wrapping arithmetic used by the source. -/
def M64 : Nat := 2 ^ 64

/-- `ChunkMap` (src/fs/btrfs.rs:277-282): one logical-to-physical range. -/
structure ChunkMap where
  logical : Nat
  length : Nat
  physical : Nat
  deriving DecidableEq, Repr

/-- The range test of `Btrfs::logical_to_physical`:
`logical >= chunk.logical && logical < chunk.logical + chunk.length`
(`u64` addition wraps). -/
def InChunk (c : ChunkMap) (a : Nat) : Prop :=
  c.logical ≤ a ∧ a < (c.logical + c.length) % M64

instance (c : ChunkMap) (a : Nat) : Decidable (InChunk c a) :=
  inferInstanceAs (Decidable (_ ∧ _))

/-- `Btrfs::logical_to_physical` (src/fs/btrfs.rs:470-479): linear search,
first matching range wins, translation `physical + (addr - logical)`. -/
def logical_to_physical : List ChunkMap → Nat → Option Nat
  | [], _ => none
  | c :: rest, a =>
    if InChunk c a then some ((c.physical + (a - c.logical)) % M64)
    else logical_to_physical rest a

/-- `BtrfsKey` (packed, 17 bytes on disk). -/
structure BKey where
  objectid : Nat
  ktype : Nat
  koffset : Nat
  deriving DecidableEq, Repr

/-- `BtrfsItem` (packed, 25 bytes on disk). -/
structure BItem where
  key : BKey
  offset : Nat
  size : Nat
  deriving DecidableEq, Repr

/-- `BtrfsKey::read_unaligned` at byte offset `o`: objectid u64, type u8,
offset u64. -/
def parseKey (d : List Nat) (o : Nat) : BKey :=
  ⟨readU64 d o, d.getD (o + 8) 0, readU64 d (o + 9)⟩

/-- `BtrfsItem::read_unaligned` at byte offset `o`: key, offset u32, size u32. -/
def parseItem (d : List Nat) (o : Nat) : BItem :=
  ⟨parseKey d o, readU32 d (o + 17), readU32 d (o + 21)⟩

/-- `nritems` of a `BtrfsHeader` (u32 at byte 96 of the 101-byte packed header). -/
def nodeNritems (d : List Nat) : Nat := readU32 d 96

/-- `level` of a `BtrfsHeader` (u8 at byte 100). -/
def nodeLevel (d : List Nat) : Nat := d.getD 100 0

/-- `BTRFS_CHUNK_ITEM_KEY`. -/
def CHUNK_ITEM_KEY : Nat := 228

/-- The item loop of `Btrfs::load_chunk_tree` (src/fs/btrfs.rs:398-429):
for every item of the leaf whose key type is `CHUNK_ITEM_KEY`, push
`{logical := key.offset, length := chunk.length, physical := stripe0.offset}`.
Items start at byte 101, are 25 bytes each; the chunk body sits at
`101 + item.offset` (chunk.length at +0, first stripe offset at +56). -/
def loadChunkTreeItems (node : List Nat) : List ChunkMap :=
  (List.range (nodeNritems node)).filterMap fun i =>
    let item := parseItem node (101 + 25 * i)
    if item.key.ktype = CHUNK_ITEM_KEY then
      some ⟨item.key.koffset, readU64 node (101 + item.offset),
            readU64 node (101 + item.offset + 56)⟩
    else none

/-- `Btrfs::load_chunk_tree` (src/fs/btrfs.rs:367-432) acting on an
already-read chunk-tree root node: a non-leaf root is skipped, a leaf has
every chunk item appended to the existing map (no deduplication). -/
def load_chunk_tree (node : List Nat) (chunks : List ChunkMap) : List ChunkMap :=
  if nodeLevel node ≠ 0 then chunks
  else chunks ++ loadChunkTreeItems node

/-- The parse loop of `Btrfs::load_sys_chunks` (src/fs/btrfs.rs:434-468),
iterated with explicit fuel: while `offset < limit`, read a key (17 bytes,
stop unless type `CHUNK_ITEM_KEY`), a chunk (48 bytes, `num_stripes` u16 at
+44), take the first stripe (offset u64 at +8 of the stripe), and skip
`num_stripes` stripes of 32 bytes. -/
def loadSysChunksAux (arr : List Nat) (limit : Nat) : Nat → Nat → List ChunkMap
  | _, 0 => []
  | off, fuel + 1 =>
    if off < limit then
      let key := parseKey arr off
      if key.ktype = CHUNK_ITEM_KEY then
        let chunkOff := off + 17
        let numStripes := readU16 arr (chunkOff + 44)
        ⟨key.koffset, readU64 arr chunkOff, readU64 arr (chunkOff + 48 + 8)⟩ ::
          loadSysChunksAux arr limit (chunkOff + 48 + numStripes * 32) fuel
      else []
    else []

/-- `Btrfs::load_sys_chunks` over `sys_chunk_array` with
`limit = sys_chunk_array_size`.  Each iteration advances the offset by at
least 65 bytes, so `limit + 1` units of fuel always suffice. -/
def load_sys_chunks (arr : List Nat) (limit : Nat) : List ChunkMap :=
  loadSysChunksAux arr limit 0 (limit + 1)

/-- The chunk map built by `Btrfs::new` (src/fs/btrfs.rs:291-348):
`load_sys_chunks` populates the map, then `load_chunk_tree` appends the
chunk-tree leaf items to it. -/
def probeChunks (arr : List Nat) (limit : Nat) (chunkTreeLeaf : List Nat) :
    List ChunkMap :=
  load_chunk_tree chunkTreeLeaf (load_sys_chunks arr limit)

/-! ## UEFI status codes used by the embedded code -/

/-- The `uefi::Status` values the embedded functions can produce. -/
inductive Status
  | SUCCESS
  | INVALID_PARAMETER
  | BUFFER_TOO_SMALL
  | NOT_FOUND
  | TIMEOUT
  | DEVICE_ERROR
  | PROTOCOL_ERROR
  | END_OF_FILE
  | CRC_ERROR
  | LOAD_ERROR
  deriving DecidableEq, Repr

/-! ## PE validation (`src/boot/mod.rs:57-103`) -/

/-- The machine word `validate_kernel_pe` expects: 0x8664 on the x86_64
build of the firmware (0xAA64 on the AArch64 build; the structure of the
check is identical, only this constant differs). -/
def EXPECTED_MACHINE : Nat := 0x8664

/-- `validate_kernel_pe` (src/boot/mod.rs:57-103); `true` models `Ok(())`.
Buffers of at most 0x40 bytes are accepted outright; with more data the MZ
signature is required, and if `pe_offset + 6 < len` the PE signature and
machine word are checked as well. -/
def validate_kernel_pe (data : List Nat) : Bool :=
  if 0x40 < data.length then
    if data.getD 0 0 ≠ 0x4d ∨ data.getD 1 0 ≠ 0x5a then false
    else if readU32 data 0x3c + 6 < data.length then
      if data.getD (readU32 data 0x3c) 0 ≠ 0x50 ∨
          data.getD (readU32 data 0x3c + 1) 0 ≠ 0x45 then false
      else decide (readU16 data (readU32 data 0x3c + 4) = EXPECTED_MACHINE)
    else true
  else true

/-! ## LoadFile2 initrd callback (`src/boot/mod.rs:28-55`) -/

/-- Observable outcome of one `load_file2_initrd` call: returned status,
the value written through the `buffer_size` pointer (`none` = untouched),
and the caller buffer contents after the call. -/
structure LoadFileOutcome where
  status : Status
  sizeOut : Option Nat
  bufferOut : Option (List Nat)
  deriving DecidableEq, Repr

/-- `load_file2_initrd` (src/boot/mod.rs:28-55).  `initrd` models the
process-wide `INITRD_DATA`; `bufferSize` the `buffer_size` out-pointer
(`none` = null, `some avail` = caller-supplied capacity); `buffer` the data
pointer (`none` = null, `some bytes` = current contents of the caller's
allocation).  A successful call copies `required_size` bytes over the front
of the buffer. -/
def load_file2_initrd : Option (List Nat) → Option Nat → Option (List Nat) →
    LoadFileOutcome
  | _, none, buffer => ⟨.INVALID_PARAMETER, none, buffer⟩
  | none, some _, buffer => ⟨.NOT_FOUND, none, buffer⟩
  | some data, some avail, buffer =>
    if buffer = none ∨ avail < data.length then
      ⟨.BUFFER_TOO_SMALL, some data.length, buffer⟩
    else
      ⟨.SUCCESS, some data.length, buffer.map fun buf => data ++ buf.drop data.length⟩

/-! ## Launcher directory walk (`src/boot/mod.rs:437-526`)

The Btrfs navigator is abstracted as an oracle of its three query
operations; `boot_linux_lookup` embeds the control flow of
`boot_linux_from_drive` from the first `find_file_in_dir` call to the two
`read_file` calls.  File names are byte strings. -/

/-- Oracle view of the `Btrfs` navigator operations used by the launcher. -/
structure FsOracle where
  getTreeRoot : Nat → Except Status Nat
  findFileInDir : Nat → Nat → List Nat → Except Status (Option (Nat × Nat))
  readFile : Nat → Nat → Except Status (List Nat)

/-- The byte string Core. -/
def nameCore : List Nat := [67, 111, 114, 101]

/-- The byte string Boot. -/
def nameBoot : List Nat := [66, 111, 111, 116]

/-- The byte string vmlinuz-linux. -/
def nameVmlinuz : List Nat :=
  [118, 109, 108, 105, 110, 117, 122, 45, 108, 105, 110, 117, 120]

/-- The byte string initramfs-linux.img. -/
def nameInitramfs : List Nat :=
  [105, 110, 105, 116, 114, 97, 109, 102, 115, 45, 108, 105, 110, 117, 120,
   46, 105, 109, 103]

/-- `BTRFS_ROOT_ITEM_KEY`. -/
def ROOT_ITEM_KEY : Nat := 132

/-- Steps 5-8 of `boot_linux_from_drive` (src/boot/mod.rs:486-510): find
Boot in the current directory, find the kernel and optional initrd inside
it, read the initrd (if present) and then the kernel.  Returns
`(kernel bytes, optional initrd bytes)`. -/
def afterCore (fs : FsOracle) (root dirId : Nat) :
    Except Status (List Nat × Option (List Nat)) :=
  match fs.findFileInDir root dirId nameBoot with
  | .error e => .error e
  | .ok none => .error .NOT_FOUND
  | .ok (some (bootObj, _)) =>
    match fs.findFileInDir root bootObj nameVmlinuz with
    | .error e => .error e
    | .ok none => .error .NOT_FOUND
    | .ok (some (kernelObj, _)) =>
      match fs.findFileInDir root bootObj nameInitramfs with
      | .error e => .error e
      | .ok (some (initrdObj, _)) =>
        match fs.readFile root initrdObj with
        | .error e => .error e
        | .ok initrdData =>
          match fs.readFile root kernelObj with
          | .error e => .error e
          | .ok kernelData => .ok (kernelData, some initrdData)
      | .ok none =>
        match fs.readFile root kernelObj with
        | .error e => .error e
        | .ok kernelData => .ok (kernelData, none)

/-- Steps 3-8 of `boot_linux_from_drive` (src/boot/mod.rs:468-510): start at
the given FS-tree root with directory object 256, look up Core, and on a
`ROOT_ITEM_KEY` result switch the FS root to `get_tree_root(objectid)` and
reset the directory object to 256; otherwise descend into the directory. -/
def boot_linux_lookup (fs : FsOracle) (fsRoot : Nat) :
    Except Status (List Nat × Option (List Nat)) :=
  match fs.findFileInDir fsRoot 256 nameCore with
  | .error e => .error e
  | .ok none => .error .NOT_FOUND
  | .ok (some (coreObj, coreType)) =>
    if coreType = ROOT_ITEM_KEY then
      match fs.getTreeRoot coreObj with
      | .error e => .error e
      | .ok newRoot => afterCore fs newRoot 256
    else afterCore fs fsRoot coreObj

/-! ## RDF receiver (`src/rdf/mod.rs:706-849`)

Two complementary embeddings are used.  `download_image` models the data
path over a lossless bulk-IN transport (claim C1's hypothesis): the
transport is a byte stream plus a schedule of packet cuts, and no transfer
fails.  `scanAttempts`/`chunkRetry` model the error-handling control flow
of the same two loops, with each bulk transfer outcome supplied explicitly
(claim C8).  SHA-256 comes from the external `sha2` crate, so the hash is a
parameter; the streaming code feeds exactly the appended bytes into it. -/

/-- `RDF_MAGIC`: the bytes of the string RDF!. -/
def RDF_MAGIC : List Nat := [0x52, 0x44, 0x46, 0x21]

/-- A lossless bulk-IN transport: the remaining byte stream and the sizes
of the upcoming packets.  A read of `n` bytes returns
`min n (next cut)` bytes from the front of the stream (all of the
remaining stream once the cut schedule is exhausted). -/
structure Transport where
  stream : List Nat
  cuts : List Nat
  deriving Repr

/-- One `bulk_transfer` read of at most `n` bytes from a lossless transport. -/
def transportRead (n : Nat) (t : Transport) : List Nat × Transport :=
  match t.cuts with
  | [] => (t.stream.take n, ⟨t.stream.drop n, []⟩)
  | c :: rest => (t.stream.take (min n c), ⟨t.stream.drop (min n c), rest⟩)

/-- `scan_buffer[0..len].windows(4).position(|w| w == RDF_MAGIC)`. -/
def findMagicAux : List Nat → Nat → Option Nat
  | a :: b :: c :: d :: rest, i =>
    if [a, b, c, d] = RDF_MAGIC then some i else findMagicAux (b :: c :: d :: rest) (i + 1)
  | _, _ => none

/-- Position of the first RDF! magic in a packet. -/
def findMagic (l : List Nat) : Option Nat := findMagicAux l 0

/-- The scanning loop of `download_image` (src/rdf/mod.rs:710-733) over a
lossless transport: 64 KiB reads; an empty read continues the loop, a
packet containing the magic ends it.  Returns the packet, the magic offset
and the transport state after the packet. -/
def scanPhase : Nat → Transport → Option (List Nat × Nat × Transport)
  | 0, _ => none
  | fuel + 1, t =>
    let r := transportRead 65536 t
    if r.1.length = 0 then scanPhase fuel r.2
    else
      match findMagic r.1 with
      | some off => some (r.1, off, r.2)
      | none => scanPhase fuel r.2

/-- The streaming loop and the verification tail of `download_image`
(src/rdf/mod.rs:780-848) over a lossless transport: while fewer than
`imageSize` bytes were accumulated, read `min remaining 65536` bytes,
append them to the image and to the hashed bytes; then run the (dead)
completeness check and compare `hash` of the hashed bytes with the
expected checksum.  `none` models fuel exhaustion. -/
def streamLoop (hash : List Nat → List Nat) (imageSize : Nat)
    (expected : List Nat) : Nat → Transport → List Nat → List Nat →
    Option (Except Status (List Nat))
  | 0, _, _, _ => none
  | fuel + 1, t, img, hashed =>
    if img.length < imageSize then
      let r := transportRead (min (imageSize - img.length) 65536) t
      streamLoop hash imageSize expected fuel r.2 (img ++ r.1) (hashed ++ r.1)
    else
      -- post-loop completeness check of the source (unreachable there: the
      -- loop only exits once total_read >= image_size)
      if img.length < imageSize then some (.error .END_OF_FILE)
      else if hash hashed = expected then some (.ok img)
      else some (.error .CRC_ERROR)

/-- The RDF receive path of `RdfManager::download_image`
(src/rdf/mod.rs:706-848) over a lossless transport: scan for the magic,
require the full 128-byte header inside the packet that contains it, parse
`image_size` (bytes 4..12) and the expected checksum (bytes 12..44), seed
the image with the packet bytes after the header, then stream and verify. -/
def download_image (hash : List Nat → List Nat) (scanFuel streamFuel : Nat)
    (t : Transport) : Option (Except Status (List Nat)) :=
  match scanPhase scanFuel t with
  | none => none
  | some (pkt, off, rest) =>
    if pkt.length - off < 128 then some (.error .PROTOCOL_ERROR)
    else
      let headerSlice := (pkt.drop off).take 128
      let imageSize := readU64 headerSlice 4
      let expected := (headerSlice.drop 12).take 32
      let seed := pkt.drop (off + 128)
      streamLoop hash imageSize expected streamFuel rest seed seed

/-- The 128-byte RDF frame header for payload `B` under hash `h`:
RDF!, le64 of the length, the 32 checksum bytes, a 64-byte zero
subvolume field and 20 reserved zero bytes (spec section 3, RdfHeader). -/
def rdfHeader (h : List Nat → List Nat) (B : List Nat) : List Nat :=
  RDF_MAGIC ++ le64 B.length ++ h B ++ List.replicate 64 0 ++ List.replicate 20 0

/-! ### Error-handling control flow of the two RDF loops (claim C8)

Here each element of the input list is the outcome of one
`bulk_transfer` call: `Except.ok data` (with `data = []` for a
zero-length packet) or `Except.error status`. -/

/-- The scanning loop of `download_image` (src/rdf/mod.rs:710-733) with
explicit transfer outcomes: `Ok` with no data or no magic continues,
`Ok` with the magic ends the loop, `Err(TIMEOUT)` continues, and any
other error is returned at once.  `Except.ok none` models an exhausted
outcome list (the loop would keep waiting). -/
def scanAttempts : List (Except Status (List Nat)) →
    Except Status (Option (List Nat × Nat))
  | [] => .ok none
  | .ok data :: rest =>
    if data.length = 0 then scanAttempts rest
    else
      match findMagic data with
      | some off => .ok (some (data, off))
      | none => scanAttempts rest
  | .error e :: rest =>
    if e = Status.TIMEOUT then scanAttempts rest else .error e

/-- The per-chunk retry loop of `download_image` (src/rdf/mod.rs:784-830)
with explicit transfer outcomes: starting from `retries` accumulated
failures and `stalls` performed 50 ms back-off stalls, while
`retries < 5` take the next outcome; `Ok 0` is a zero-length packet
(chunk ends with no data), `Ok read` ends the chunk with data, and an
error increments `retries`, returning it once `retries` reaches 5 and
stalling 50 ms before the re-attempt otherwise.  With `retries ≥ 5` the
loop body is skipped and `chunk_success = false` yields `DEVICE_ERROR`.
Returns the chunk outcome plus the total number of stalls; `none` models
an exhausted outcome list. -/
def chunkRetry : List (Except Status Nat) → Nat → Nat →
    Option (Except Status (Option Nat) × Nat)
  | attempts, retries, stalls =>
    if retries < 5 then
      match attempts with
      | [] => none
      | .ok read :: _ =>
        if read = 0 then some (.ok none, stalls) else some (.ok (some read), stalls)
      | .error e :: rest =>
        if retries + 1 ≥ 5 then some (.error e, stalls)
        else chunkRetry rest (retries + 1) (stalls + 1)
    else some (.error Status.DEVICE_ERROR, stalls)

/-! ## Shared helper lemmas -/

theorem getD_append_left_zero {d e : List Nat} {i : Nat} (h : i < d.length) :
    (d ++ e).getD i 0 = d.getD i 0 :=
  List.getD_append d e 0 i h

theorem getD_shift (pre l : List Nat) (i : Nat) :
    (pre ++ l).getD (pre.length + i) 0 = l.getD i 0 := by
  rw [List.getD_append_right pre l 0 _ (Nat.le_add_right _ _)]
  congr 1
  omega

theorem readU16_append_left {d e : List Nat} {i : Nat} (h : i + 1 < d.length) :
    readU16 (d ++ e) i = readU16 d i := by
  unfold readU16
  rw [getD_append_left_zero (by omega), getD_append_left_zero (by omega)]

theorem readU32_append_left {d e : List Nat} {i : Nat} (h : i + 3 < d.length) :
    readU32 (d ++ e) i = readU32 d i := by
  unfold readU32
  rw [getD_append_left_zero (by omega), getD_append_left_zero (by omega),
    getD_append_left_zero (by omega), getD_append_left_zero (by omega)]

theorem readU16_shift (pre l : List Nat) (i : Nat) :
    readU16 (pre ++ l) (pre.length + i) = readU16 l i := by
  unfold readU16
  have h1 : pre.length + i + 1 = pre.length + (i + 1) := by omega
  rw [getD_shift, h1, getD_shift]

theorem getD_drop_zero (l : List Nat) (i j : Nat) :
    (l.drop i).getD j 0 = l.getD (i + j) 0 := by
  induction l generalizing i with
  | nil => simp [List.getD]
  | cons a l ih =>
    cases i with
    | zero => simp
    | succ i =>
      have h : i + 1 + j = i + j + 1 := by omega
      rw [List.drop_succ_cons, ih i, h, List.getD_cons_succ]

theorem readU16_drop (d : List Nat) (i : Nat) :
    readU16 d i = readU16 (d.drop i) 0 := by
  unfold readU16
  rw [getD_drop_zero, getD_drop_zero]
  simp

theorem readU16_le16 (n : Nat) (rest : List Nat) :
    readU16 (le16 n ++ rest) 0 = n % 65536 := by
  simp [readU16, le16]
  omega

theorem readU32_drop (d : List Nat) (i : Nat) :
    readU32 d i = readU32 (d.drop i) 0 := by
  unfold readU32
  rw [getD_drop_zero, getD_drop_zero, getD_drop_zero, getD_drop_zero]
  simp

theorem readU32_le32 (n : Nat) (rest : List Nat) :
    readU32 (le32 n ++ rest) 0 = n % 2 ^ 32 := by
  simp [readU32, le32]
  omega

theorem encodeAtom_length (p : Nat × List Nat) :
    (encodeAtom p).length = 4 + p.2.length := by
  simp [encodeAtom, le16]
  omega

theorem payload_length (l : List (Nat × List Nat)) :
    ((l.map encodeAtom).flatten).length = (l.map fun p => 4 + p.2.length).sum := by
  rw [List.length_flatten, List.map_map]
  congr 1
  exact List.map_congr_left fun p _ => encodeAtom_length p

theorem length_le_payload (l : List (Nat × List Nat)) :
    l.length ≤ ((l.map encodeAtom).flatten).length := by
  induction l with
  | nil => simp
  | cons p l ih =>
    simp only [List.map_cons, List.flatten_cons, List.length_append, List.length_cons]
    have := encodeAtom_length p
    omega

theorem atomsFromAux_encoded (l : List (Nat × List Nat)) :
    ∀ (data : List Nat) (off fuel : Nat),
      (∀ p ∈ l, p.1 < 65536) → (∀ p ∈ l, p.2.length < 65536) →
      l.length < fuel → off ≤ data.length →
      data.drop off = (l.map encodeAtom).flatten →
      atomsFromAux data off fuel = l := by
  induction l with
  | nil =>
    intro data off fuel _ _ hfuel hoff hdrop
    have hlen : data.length ≤ off := by
      have := List.length_drop off data
      rw [hdrop] at this
      simp at this
      omega
    match fuel, hfuel with
    | fuel + 1, _ =>
      unfold atomsFromAux
      rw [if_pos (by omega)]
  | cons p l ih =>
    intro data off fuel htag hval hfuel hoff hdrop
    have hsplit : data.drop off =
        p.1 % 256 :: p.1 / 256 % 256 :: p.2.length % 256 :: p.2.length / 256 % 256 ::
          (p.2 ++ (l.map encodeAtom).flatten) := by
      rw [hdrop]
      simp [encodeAtom, le16]
    have hdlen : data.length - off =
        4 + p.2.length + ((l.map encodeAtom).flatten).length := by
      have h1 := List.length_drop off data
      rw [hsplit] at h1
      simp only [List.length_cons, List.length_append] at h1
      omega
    match fuel, hfuel with
    | fuel + 1, hfuel =>
      unfold atomsFromAux
      have htagp : p.1 < 65536 := htag p (List.mem_cons_self _ _)
      have hvalp : p.2.length < 65536 := hval p (List.mem_cons_self _ _)
      rw [if_neg (by omega)]
      have hrtag : readU16 data off = p.1 := by
        rw [readU16_drop, hsplit]
        simp [readU16]
        omega
      have hdrop2 : data.drop (off + 2) =
          p.2.length % 256 :: p.2.length / 256 % 256 ::
            (p.2 ++ (l.map encodeAtom).flatten) := by
        rw [← List.drop_drop, hsplit]
        simp
      have hrlen : readU16 data (off + 2) = p.2.length := by
        rw [readU16_drop, hdrop2]
        simp [readU16]
        omega
      rw [hrtag, hrlen]
      rw [if_neg (by omega)]
      have hdrop4 : data.drop (off + 4) = p.2 ++ (l.map encodeAtom).flatten := by
        rw [← List.drop_drop, hsplit]
        simp
      have hvalue : (data.drop (off + 4)).take p.2.length = p.2 := by
        rw [hdrop4, List.take_left]
      have hrest : atomsFromAux data (off + 4 + p.2.length) fuel = l := by
        apply ih data (off + 4 + p.2.length) fuel
          (fun q hq => htag q (List.mem_cons_of_mem _ hq))
          (fun q hq => hval q (List.mem_cons_of_mem _ hq))
          (by simp at hfuel; omega)
          (by omega)
        rw [← List.drop_drop, hdrop4]
        exact List.drop_left _ _
      rw [hvalue, hrest]

theorem readU64_drop (d : List Nat) (i : Nat) :
    readU64 d i = readU64 (d.drop i) 0 := by
  unfold readU64
  rw [getD_drop_zero, getD_drop_zero, getD_drop_zero, getD_drop_zero,
    getD_drop_zero, getD_drop_zero, getD_drop_zero, getD_drop_zero]
  simp

theorem readU64_le64 (n : Nat) (rest : List Nat) :
    readU64 (le64 n ++ rest) 0 = n % 2 ^ 64 := by
  simp [readU64, le64]
  omega

theorem rdfHeader_length (hash : List Nat → List Nat) (B : List Nat)
    (hh : (hash B).length = 32) : (rdfHeader hash B).length = 128 := by
  simp [rdfHeader, RDF_MAGIC, le64, hh]

theorem findMagic_prefix_rdf (tail : List Nat) :
    findMagic (RDF_MAGIC ++ tail) = some 0 := rfl

theorem streamLoop_run (hash : List Nat → List Nat) (expected : List Nat) :
    ∀ (fuel N : Nat) (img rest cuts : List Nat),
      (∀ c ∈ cuts, 0 < c) →
      rest.length < fuel →
      N = img.length + rest.length →
      streamLoop hash N expected fuel ⟨rest, cuts⟩ img img =
        (if hash (img ++ rest) = expected then some (.ok (img ++ rest))
         else some (.error .CRC_ERROR)) := by
  intro fuel
  induction fuel with
  | zero =>
    intro N img rest cuts _ hfuel _
    omega
  | succ fuel ih =>
    intro N img rest cuts hcuts hfuel hN
    subst hN
    by_cases hrest : rest.length = 0
    · have hnil : rest = [] := List.length_eq_zero.mp hrest
      subst hnil
      simp only [streamLoop, List.length_nil, Nat.add_zero, List.append_nil]
      rw [if_neg (by omega), if_neg (by omega)]
    · have key : ∀ (k : Nat) (cuts2 : List Nat), 1 ≤ k → k ≤ rest.length →
          (∀ c ∈ cuts2, 0 < c) →
          streamLoop hash (img.length + rest.length) expected fuel
            ⟨rest.drop k, cuts2⟩ (img ++ rest.take k) (img ++ rest.take k) =
          (if hash (img ++ rest) = expected then some (.ok (img ++ rest))
           else some (.error .CRC_ERROR)) := by
        intro k cuts2 hk1 hk2 hcuts2
        have hlens : img.length + rest.length =
            (img ++ rest.take k).length + (rest.drop k).length := by
          simp only [List.length_append, List.length_take, List.length_drop]
          omega
        have happ : (img ++ rest.take k) ++ rest.drop k = img ++ rest := by
          rw [List.append_assoc, List.take_append_drop]
        have hfuel2 : (rest.drop k).length < fuel := by
          simp only [List.length_drop]
          omega
        have h := ih (img.length + rest.length) (img ++ rest.take k)
          (rest.drop k) cuts2 hcuts2 hfuel2 hlens
        rw [happ] at h
        exact h
      simp only [streamLoop]
      rw [if_pos (by omega)]
      have hn : img.length + rest.length - img.length = rest.length := by omega
      rw [hn]
      cases cuts with
      | nil =>
        simp only [transportRead]
        exact key (min rest.length 65536) [] (by omega) (by omega) hcuts
      | cons c cs =>
        simp only [transportRead]
        exact key (min (min rest.length 65536) c) cs
          (by have := hcuts c (List.mem_cons_self _ _); omega)
          (by omega)
          (fun x hx => hcuts x (List.mem_cons_of_mem _ hx))

/-! ## Claim theorems -/

/-- Claim C6: `ConfigView` construction succeeds iff the input has length at
least 16, the RGN! magic at bytes 0..4, little-endian version 1 at bytes
4..6, and a little-endian `total_size` at bytes 6..10 of at most the input
length; on success the view is exactly bytes `0..total_size` of the input.
The construction is modelled as a pure function whose result is a slice of
the input, mirroring that the source stores a borrow and allocates nothing. -/
theorem rbc_validation_iff (data : List Nat) :
    ((ConfigView_new data).isOk = true ↔
      (16 ≤ data.length ∧ data.take 4 = RBC_MAGIC ∧ readU16 data 4 = 1 ∧
        readU32 data 6 ≤ data.length)) ∧
    (∀ v, ConfigView_new data = .ok v → v = data.take (readU32 data 6)) := by
  unfold ConfigView_new
  constructor
  · constructor
    · split_ifs with h1 h2 h3 h4
      · intro h; simp [Except.isOk, Except.toBool] at h
      · intro h; simp [Except.isOk, Except.toBool] at h
      · intro h; simp [Except.isOk, Except.toBool] at h
      · intro h; simp [Except.isOk, Except.toBool] at h
      · exact fun _ => ⟨by omega, not_not.mp h2, not_not.mp h3, by omega⟩
    · rintro ⟨hl, hm, hv, ht⟩
      split_ifs with h1 h2 h3 h4
      · omega
      · exact absurd hm h2
      · exact absurd hv h3
      · omega
      · rfl
  · intro v hv
    split_ifs at hv
    simp_all

/-- Witness for C6 at a concrete 16-byte blob. -/
theorem rbc_validation_iff_witness :
    (ConfigView_new
      [0x52, 0x47, 0x4E, 0x21, 1, 0, 16, 0, 0, 0, 0, 0, 0, 0, 0, 0]).isOk = true :=
  ((rbc_validation_iff _).1).mpr (by decide)

/-- Claim C7: the `load_file2_initrd` callback contract with an initrd of
`d.length` bytes installed: (a) a null out-size pointer yields
`INVALID_PARAMETER`; (b) on every other call the required size is written
through the out-size pointer; (c) a null data pointer or a declared
capacity below the required size yields `BUFFER_TOO_SMALL`; (d) otherwise
exactly the initrd bytes are copied over the front of the buffer and the
call succeeds. -/
theorem load_file2_contract (d : List Nat) :
    (∀ buf, load_file2_initrd (some d) none buf =
      ⟨.INVALID_PARAMETER, none, buf⟩) ∧
    (∀ avail buf,
      (load_file2_initrd (some d) (some avail) buf).sizeOut = some d.length) ∧
    (∀ avail buf, buf = none ∨ avail < d.length →
      load_file2_initrd (some d) (some avail) buf =
        ⟨.BUFFER_TOO_SMALL, some d.length, buf⟩) ∧
    (∀ avail buf, d.length ≤ avail →
      load_file2_initrd (some d) (some avail) (some buf) =
        ⟨.SUCCESS, some d.length, some (d ++ buf.drop d.length)⟩) := by
  refine ⟨fun _ => rfl, ?_, ?_, ?_⟩
  · intro avail buf
    simp only [load_file2_initrd]
    split_ifs <;> rfl
  · intro avail buf h
    simp only [load_file2_initrd]
    rw [if_pos h]
  · intro avail buf h
    simp only [load_file2_initrd]
    rw [if_neg]
    · rfl
    · rintro (hc | hc)
      · exact Option.noConfusion hc
      · omega

/-- Witness for C7: a 2-byte initrd copied into a 5-byte buffer of declared
capacity 5. -/
theorem load_file2_contract_witness :
    load_file2_initrd (some [1, 2]) (some 5) (some [9, 9, 9, 9, 9]) =
      ⟨.SUCCESS, some 2, some [1, 2, 9, 9, 9]⟩ :=
  (load_file2_contract [1, 2]).2.2.2 5 [9, 9, 9, 9, 9] (by decide)

/-- Claim C5: when the Core lookup in the FS-tree root directory (object
256) returns a `ROOT_ITEM_KEY` entry with objectid `t`, the launcher
switches the FS root to `get_tree_root t` and runs the remaining lookups
(`afterCore`) at directory object 256 of that new tree; in particular the
original tree is never searched at object `t`. -/
theorem subvolume_crossing (fs : FsOracle) (fsRoot t newRoot : Nat)
    (hcore : fs.findFileInDir fsRoot 256 nameCore = .ok (some (t, ROOT_ITEM_KEY)))
    (hroot : fs.getTreeRoot t = .ok newRoot) :
    boot_linux_lookup fs fsRoot = afterCore fs newRoot 256 := by
  unfold boot_linux_lookup
  rw [hcore]
  simp [hroot]

/-- Claim C1: RDF round-trip over a lossless transport.  For every payload
`B` (shorter than `2^64` bytes), every 32-byte hash function and every cut
of the stream into non-empty packets whose first packet holds at least the
complete 128-byte header, `download_image` on the stream
`RDF! + le64(len B) + hash(B) + zeros(64) + zeros(20) + B` returns
`Ok` with output byte-equal to `B`, and checksum verification succeeds
(no `CRC_ERROR`).  The hash is abstract because SHA-256 lives in the
external `sha2` crate; the receiver hashes exactly the bytes it appends,
so the comparison against the transmitted `hash(B)` succeeds for any hash. -/
theorem rdf_round_trip (B : List Nat) (hash : List Nat → List Nat)
    (c0 : Nat) (cuts : List Nat)
    (hh : (hash B).length = 32)
    (hB : B.length < 2 ^ 64)
    (hc0 : 128 ≤ c0)
    (hcuts : ∀ c ∈ cuts, 0 < c) :
    download_image hash 1 (B.length + 1) ⟨rdfHeader hash B ++ B, c0 :: cuts⟩ =
      some (.ok B) := by
  have hHlen : (rdfHeader hash B).length = 128 := rdfHeader_length hash B hh
  have hFlen : (rdfHeader hash B ++ B).length = 128 + B.length := by
    simp [hHlen]
  have hread : transportRead 65536 ⟨rdfHeader hash B ++ B, c0 :: cuts⟩ =
      ((rdfHeader hash B ++ B).take (min 65536 c0),
        ⟨(rdfHeader hash B ++ B).drop (min 65536 c0), cuts⟩) := rfl
  have hk128 : 128 ≤ min 65536 c0 := by omega
  have hdlen : ((rdfHeader hash B ++ B).take (min 65536 c0)).length =
      min (min 65536 c0) (128 + B.length) := by
    rw [List.length_take, hFlen]
  have hdlen128 : 128 ≤ ((rdfHeader hash B ++ B).take (min 65536 c0)).length := by
    omega
  have hdata : (rdfHeader hash B ++ B).take (min 65536 c0) =
      RDF_MAGIC ++ ((le64 B.length ++ (hash B ++ (List.replicate 64 0 ++
        (List.replicate 20 0 ++ B)))).take (min 65536 c0 - 4)) := by
    rw [show rdfHeader hash B ++ B = RDF_MAGIC ++ (le64 B.length ++ (hash B ++
        (List.replicate 64 0 ++ (List.replicate 20 0 ++ B)))) by
      simp [rdfHeader, List.append_assoc]]
    conv_lhs => rw [show min 65536 c0 = RDF_MAGIC.length + (min 65536 c0 - 4) by
      simp only [RDF_MAGIC, List.length_cons, List.length_nil]
      omega]
    rw [List.take_append]
  have hfind : findMagic ((rdfHeader hash B ++ B).take (min 65536 c0)) = some 0 := by
    rw [hdata]
    exact findMagic_prefix_rdf _
  have hscan : scanPhase 1 ⟨rdfHeader hash B ++ B, c0 :: cuts⟩ =
      some ((rdfHeader hash B ++ B).take (min 65536 c0), 0,
        ⟨(rdfHeader hash B ++ B).drop (min 65536 c0), cuts⟩) := by
    simp only [scanPhase, hread]
    rw [if_neg (by omega), hfind]
  have hheader : (((rdfHeader hash B ++ B).take (min 65536 c0)).drop 0).take 128 =
      rdfHeader hash B := by
    rw [List.drop_zero, List.take_take]
    rw [show (128 : Nat) ⊓ min 65536 c0 = 128 by omega]
    exact List.take_append_of_le_length (by omega) |>.trans
      (by rw [List.take_of_length_le (by omega)])
  have hsize : readU64 (rdfHeader hash B) 4 = B.length := by
    rw [readU64_drop]
    rw [show rdfHeader hash B = RDF_MAGIC ++ (le64 B.length ++ (hash B ++
        (List.replicate 64 0 ++ List.replicate 20 0))) by
      simp [rdfHeader, List.append_assoc]]
    rw [List.drop_left' (by simp [RDF_MAGIC]), readU64_le64, Nat.mod_eq_of_lt hB]
  have hexp : ((rdfHeader hash B).drop 12).take 32 = hash B := by
    rw [show rdfHeader hash B = (RDF_MAGIC ++ le64 B.length) ++ (hash B ++
        (List.replicate 64 0 ++ List.replicate 20 0)) by
      simp [rdfHeader, List.append_assoc]]
    rw [List.drop_left' (by simp [RDF_MAGIC, le64]), List.take_left' hh]
  have hdrop128 : (rdfHeader hash B ++ B).drop 128 = B :=
    List.drop_left' hHlen
  have hseed : ((rdfHeader hash B ++ B).take (min 65536 c0)).drop (0 + 128) =
      B.take (min 65536 c0 - 128) := by
    rw [Nat.zero_add, List.drop_take, hdrop128]
  have hFdrop : (rdfHeader hash B ++ B).drop (min 65536 c0) =
      B.drop (min 65536 c0 - 128) := by
    conv_lhs => rw [show min 65536 c0 = 128 + (min 65536 c0 - 128) by omega]
    rw [← List.drop_drop, hdrop128]
  simp only [download_image, hscan]
  rw [if_neg (by omega)]
  rw [hheader, hsize, hexp, hseed, hFdrop]
  have hrun := streamLoop_run hash (hash B) (B.length + 1) B.length
    (B.take (min 65536 c0 - 128)) (B.drop (min 65536 c0 - 128)) cuts hcuts
    (by simp only [List.length_drop]; omega)
    (by simp only [List.length_append, List.length_take, List.length_drop]; omega)
  rw [List.take_append_drop] at hrun
  rw [hrun, if_pos rfl]

/-- Witness for C1: the 5-byte payload hello streamed behind a well-formed
header in one 200-byte-cut packet, with a constant 32-byte hash. -/
theorem rdf_round_trip_witness :
    download_image (fun _ => List.replicate 32 0) 1 6
      ⟨rdfHeader (fun _ => List.replicate 32 0) [104, 101, 108, 108, 111] ++
        [104, 101, 108, 108, 111], 200 :: []⟩ =
      some (.ok [104, 101, 108, 108, 111]) :=
  rdf_round_trip [104, 101, 108, 108, 111] (fun _ => List.replicate 32 0) 200 []
    (by decide) (by decide) (by decide) (by simp)

set_option maxRecDepth 8000 in
/-- Claim C2, counterexample: `rbcTwoAtomBlob` is a well-formed two-atom
blob, byte for byte what the companion CLI emits, and `ConfigView::new`
accepts it; its iterator yields 2 atoms and its atom-count field (the u16
at header bytes 10..12) is 2, but the u16 at header bytes 8..10 — the
location named by the claim — holds 0 (the high half of
`total_size = 40`), so the iterator yields more atoms than that. -/
theorem rbc_atom_count_counterexample :
    ConfigView_new rbcTwoAtomBlob = .ok rbcTwoAtomBlob ∧
    (atoms rbcTwoAtomBlob).length = 2 ∧
    readU16 rbcTwoAtomBlob 10 = 2 ∧
    readU16 rbcTwoAtomBlob 8 = 0 ∧
    ¬((atoms rbcTwoAtomBlob).length ≤ readU16 rbcTwoAtomBlob 8) := by
  exact ⟨rfl, rfl, rfl, rfl, by decide⟩

/-- Claim C2, amended: for every `ConfigView` built from a well-formed blob
(one whose payload is exactly the TLV encoding of an atom list, with the
atom count stored as the u16 at header bytes 10..12 — not 8..10, which is
the high half of `total_size`), the iterator yields exactly the encoded
atoms, hence at most `atom_count` of them (it terminates by construction),
and the sum of `4 + length` over the yielded atoms is exactly
`total_size - 16`. -/
theorem rbc_atoms_bounded (l : List (Nat × List Nat)) (slack : List Nat)
    (htag : ∀ p ∈ l, p.1 < 65536)
    (hval : ∀ p ∈ l, p.2.length < 65536)
    (hcount : l.length < 65536)
    (htotal : 16 + ((l.map encodeAtom).flatten).length < 2 ^ 32) :
    ConfigView_new (rbcBlob l ++ slack) = .ok (rbcBlob l) ∧
    atoms (rbcBlob l) = l ∧
    (atoms (rbcBlob l)).length ≤ readU16 (rbcBlob l) 10 ∧
    ((atoms (rbcBlob l)).map fun p => 4 + p.2.length).sum =
      readU32 (rbcBlob l) 6 - 16 := by
  have hsplit6 : rbcBlob l = (RBC_MAGIC ++ le16 1) ++
      (le32 (16 + ((l.map encodeAtom).flatten).length) ++
        (le16 l.length ++ ([0, 0, 0, 0] ++ (l.map encodeAtom).flatten))) := by
    simp [rbcBlob, List.append_assoc]
  have hsplit10 : rbcBlob l = (RBC_MAGIC ++ le16 1 ++
      le32 (16 + ((l.map encodeAtom).flatten).length)) ++
      (le16 l.length ++ ([0, 0, 0, 0] ++ (l.map encodeAtom).flatten)) := by
    simp [rbcBlob, List.append_assoc]
  have hsplit16 : rbcBlob l = (RBC_MAGIC ++ le16 1 ++
      le32 (16 + ((l.map encodeAtom).flatten).length) ++ le16 l.length ++
      [0, 0, 0, 0]) ++ (l.map encodeAtom).flatten := by
    simp [rbcBlob, List.append_assoc]
  have hlen : (rbcBlob l).length = 16 + ((l.map encodeAtom).flatten).length := by
    rw [hsplit16]
    simp [RBC_MAGIC, le16, le32]
    omega
  have hr32 : readU32 (rbcBlob l) 6 = 16 + ((l.map encodeAtom).flatten).length := by
    rw [readU32_drop, hsplit6, List.drop_left' (by simp [RBC_MAGIC, le16]),
      readU32_le32, Nat.mod_eq_of_lt htotal]
  have hr10 : readU16 (rbcBlob l) 10 = l.length := by
    rw [readU16_drop, hsplit10, List.drop_left' (by simp [RBC_MAGIC, le16, le32]),
      readU16_le16, Nat.mod_eq_of_lt hcount]
  have hr4 : readU16 (rbcBlob l) 4 = 1 := by
    rw [readU16_drop, hsplit6]
    have h : ((RBC_MAGIC ++ le16 1) ++
        (le32 (16 + ((l.map encodeAtom).flatten).length) ++
          (le16 l.length ++ ([0, 0, 0, 0] ++ (l.map encodeAtom).flatten)))).drop 4 =
        le16 1 ++ (le32 (16 + ((l.map encodeAtom).flatten).length) ++
          (le16 l.length ++ ([0, 0, 0, 0] ++ (l.map encodeAtom).flatten))) := by
      rw [List.append_assoc]
      exact List.drop_left' (by simp [RBC_MAGIC])
    rw [h, readU16_le16]
  have hatoms : atoms (rbcBlob l) = l := by
    unfold atoms
    apply atomsFromAux_encoded l (rbcBlob l) 16 ((rbcBlob l).length + 1) htag hval
    · have := length_le_payload l
      omega
    · omega
    · rw [hsplit16]
      exact List.drop_left' (by simp [RBC_MAGIC, le16, le32])
  refine ⟨?_, hatoms, ?_, ?_⟩
  · unfold ConfigView_new
    rw [if_neg (by simp only [List.length_append]; omega)]
    rw [if_neg (by
      rw [not_not, List.take_append_of_le_length (by omega)]
      nth_rewrite 1 [hsplit6]
      rw [List.append_assoc, List.take_left' (by simp [RBC_MAGIC])])]
    rw [readU16_append_left (by omega), if_neg (by simp [hr4])]
    rw [readU32_append_left (by omega), hr32]
    rw [if_neg (by simp only [List.length_append]; omega)]
    rw [← hlen, List.take_left]
  · rw [hatoms, hr10]
  · rw [hatoms, hr32, payload_length]
    omega

/-- Witness for the amended C2 at the concrete two-atom blob. -/
theorem rbc_atoms_bounded_witness :
    ConfigView_new (rbcTwoAtomBlob ++ [7, 7]) = .ok rbcTwoAtomBlob ∧
    atoms rbcTwoAtomBlob = [(0x01, List.replicate 16 0xAB), (0xFF, [])] := by
  have h := rbc_atoms_bounded [(0x01, List.replicate 16 0xAB), (0xFF, [])] [7, 7]
    (by decide) (by decide) (by decide) (by decide)
  exact ⟨h.1, h.2.1⟩

/-- Claim C3, counterexample: on the chunk map
`[{logical 0, length 10, physical 100}, {logical 0, length 10, physical 200}]`
(reachable, since the loaders never deduplicate — see C10) the lookup of
address 5 returns `some 105`, yet 5 lies in two distinct chunk ranges of
the map, not exactly one. -/
theorem chunk_lookup_counterexample :
    logical_to_physical [⟨0, 10, 100⟩, ⟨0, 10, 200⟩] 5 = some 105 ∧
    ¬∃! c : ChunkMap, c ∈ [(⟨0, 10, 100⟩ : ChunkMap), ⟨0, 10, 200⟩] ∧ InChunk c 5 := by
  constructor
  · decide
  · rintro ⟨c, _, huniq⟩
    have h1 : (⟨0, 10, 100⟩ : ChunkMap) = c :=
      huniq ⟨0, 10, 100⟩ ⟨by simp, by decide⟩
    have h2 : (⟨0, 10, 200⟩ : ChunkMap) = c :=
      huniq ⟨0, 10, 200⟩ ⟨by simp, by decide⟩
    rw [← h2] at h1
    exact absurd h1 (by decide)

/-- Claim C3, amended: for every chunk map whose ranges are pairwise
disjoint (the documented `ChunkMap` invariant), if the lookup of `a`
returns `some p` then `a` lies in exactly one chunk range, with
`p = (physical + (a - logical)) % 2^64` for that chunk (so
`p - physical = a - logical` whenever the translation does not wrap), and
if `a` lies in no chunk range the lookup returns `none`. -/
theorem chunk_lookup_disjoint (map : List ChunkMap)
    (hdisj : map.Pairwise fun c d => ∀ a, ¬(InChunk c a ∧ InChunk d a)) :
    (∀ a p, logical_to_physical map a = some p →
      ∃ c, c ∈ map ∧ InChunk c a ∧ (∀ d ∈ map, InChunk d a → d = c) ∧
        p = (c.physical + (a - c.logical)) % M64 ∧
        (c.physical + (a - c.logical) < M64 → p - c.physical = a - c.logical)) ∧
    (∀ a, (∀ c ∈ map, ¬InChunk c a) → logical_to_physical map a = none) := by
  induction map with
  | nil =>
    exact ⟨fun a p h => by simp [logical_to_physical] at h, fun a _ => rfl⟩
  | cons c rest ih =>
    have hdrest : rest.Pairwise fun c d => ∀ a, ¬(InChunk c a ∧ InChunk d a) :=
      (List.pairwise_cons.mp hdisj).2
    have hhead : ∀ d ∈ rest, ∀ a, ¬(InChunk c a ∧ InChunk d a) :=
      (List.pairwise_cons.mp hdisj).1
    constructor
    · intro a p h
      unfold logical_to_physical at h
      by_cases hc : InChunk c a
      · rw [if_pos hc] at h
        have hpe := (Option.some.inj h).symm
        refine ⟨c, List.mem_cons_self _ _, hc, ?_, hpe, ?_⟩
        · intro d hd hda
          rcases List.mem_cons.mp hd with rfl | hd2
          · rfl
          · exact absurd ⟨hc, hda⟩ (hhead d hd2 a)
        · intro hlt
          rw [Nat.mod_eq_of_lt hlt] at hpe
          omega
      · rw [if_neg hc] at h
        obtain ⟨d, hdmem, hda, huniq, hp, hnw⟩ := (ih hdrest).1 a p h
        refine ⟨d, List.mem_cons_of_mem _ hdmem, hda, ?_, hp, hnw⟩
        intro e he hea
        rcases List.mem_cons.mp he with rfl | he2
        · exact absurd hea hc
        · exact huniq e he2 hea
    · intro a hnone
      unfold logical_to_physical
      rw [if_neg (hnone c (List.mem_cons_self _ _))]
      exact (ih hdrest).2 a fun d hd => hnone d (List.mem_cons_of_mem _ hd)

/-- Witness for the amended C3 on a concrete two-chunk disjoint map. -/
theorem chunk_lookup_disjoint_witness :
    logical_to_physical [⟨0, 10, 100⟩, ⟨100, 5, 0⟩] 3 = some 103 ∧
    logical_to_physical [⟨0, 10, 100⟩, ⟨100, 5, 0⟩] 50 = none := by
  have h := chunk_lookup_disjoint [⟨0, 10, 100⟩, ⟨100, 5, 0⟩] (by
    refine List.Pairwise.cons ?_ (List.Pairwise.cons (by simp) List.Pairwise.nil)
    intro d hd a
    simp only [List.mem_singleton] at hd
    subst hd
    simp only [InChunk, M64, not_and]
    intro h1 h2
    omega)
  refine ⟨by decide, h.2 50 ?_⟩
  intro cc hcc
  fin_cases hcc <;> decide

/-- Claim C10: the chunk map built by probe is not deduplicated — with a
leaf-level chunk tree, probing yields exactly the `sys_chunk_array` entries
followed by one entry per `CHUNK_ITEM_KEY` item of the chunk-tree leaf,
with no filtering against already-loaded ranges (so duplicate and
overlapping entries survive, as exercised by C3's counterexample map); and
`logical_to_physical` translates through the first matching entry in
insertion order (`List.find?`). -/
theorem chunk_map_no_dedup :
    (∀ arr limit node, nodeLevel node = 0 →
      probeChunks arr limit node =
        load_sys_chunks arr limit ++ loadChunkTreeItems node) ∧
    (∀ map a, logical_to_physical map a =
      (map.find? fun c => decide (InChunk c a)).map
        fun c => (c.physical + (a - c.logical)) % M64) := by
  constructor
  · intro arr limit node hlevel
    unfold probeChunks load_chunk_tree
    rw [if_neg (by simp [hlevel])]
  · intro map a
    induction map with
    | nil => rfl
    | cons c rest ih =>
      unfold logical_to_physical
      by_cases hc : InChunk c a
      · rw [List.find?_cons_of_pos _ (by simpa using hc), if_pos hc]
        rfl
      · rw [List.find?_cons_of_neg _ (by simpa using hc), if_neg hc]
        exact ih

/-- Witness for C10: a trivial probe input, and the overlapping map of C3's
counterexample resolved through its first entry. -/
theorem chunk_map_no_dedup_witness :
    probeChunks [] 0 (List.replicate 101 0) =
      load_sys_chunks [] 0 ++ loadChunkTreeItems (List.replicate 101 0) ∧
    logical_to_physical [⟨0, 10, 100⟩, ⟨0, 10, 200⟩] 5 =
      (([(⟨0, 10, 100⟩ : ChunkMap), ⟨0, 10, 200⟩].find? fun c =>
          decide (InChunk c 5)).map
        fun c => (c.physical + (5 - c.logical)) % M64) :=
  ⟨chunk_map_no_dedup.1 [] 0 (List.replicate 101 0) (by decide),
   chunk_map_no_dedup.2 [⟨0, 10, 100⟩, ⟨0, 10, 200⟩] 5⟩

theorem chunkRetry_ok_after_failures (k : Nat) (rest : List (Except Status Nat)) :
    ∀ (errs : List Status) (retries stalls : Nat),
      retries + errs.length < 5 → k ≠ 0 →
      chunkRetry (errs.map .error ++ .ok k :: rest) retries stalls =
        some (.ok (some k), stalls + errs.length) := by
  intro errs
  induction errs with
  | nil =>
    intro retries stalls hlt hk
    unfold chunkRetry
    rw [if_pos (by simpa using hlt)]
    simp [hk]
  | cons e errs ih =>
    intro retries stalls hlt hk
    unfold chunkRetry
    rw [if_pos (by simp at hlt ⊢; omega)]
    simp only [List.map_cons, List.cons_append]
    rw [if_neg (by simp at hlt ⊢; omega)]
    rw [ih (retries + 1) (stalls + 1) (by simp at hlt ⊢; omega) hk]
    congr 2
    simp
    omega

set_option maxRecDepth 8000 in
/-- Claim C8, counterexample: in the scanning state a failing (non-timeout)
bulk-IN read is escalated immediately, with no retry and no back-off — on
an outcome list whose first read fails with `DEVICE_ERROR` and whose second
read would deliver a packet containing the full RDF header, the scanning
loop returns the error, although a single retry would have succeeded. -/
theorem rdf_retry_counterexample :
    scanAttempts [.error .DEVICE_ERROR,
      .ok (RDF_MAGIC ++ List.replicate 124 0)] = .error .DEVICE_ERROR ∧
    scanAttempts [.ok (RDF_MAGIC ++ List.replicate 124 0)] =
      .ok (some (RDF_MAGIC ++ List.replicate 124 0, 0)) := by
  exact ⟨rfl, rfl⟩

/-- Claim C8, amended: only the streaming state retries — there a failing
read is re-attempted after a 50 ms stall until the fifth consecutive
failure, which is returned (4 stalls in total), and a success before that
ends the chunk; in the scanning state a timeout simply continues the loop
and any other error is returned at once, with no retry and no back-off. -/
theorem rdf_retry_budget :
    (∀ rest, scanAttempts (.error .TIMEOUT :: rest) = scanAttempts rest) ∧
    (∀ e rest, e ≠ .TIMEOUT → scanAttempts (.error e :: rest) = .error e) ∧
    (∀ e1 e2 e3 e4 e5 rest,
      chunkRetry (.error e1 :: .error e2 :: .error e3 :: .error e4 ::
        .error e5 :: rest) 0 0 = some (.error e5, 4)) ∧
    (∀ (errs : List Status) (k : Nat) rest, errs.length < 5 → k ≠ 0 →
      chunkRetry (errs.map .error ++ .ok k :: rest) 0 0 =
        some (.ok (some k), errs.length)) := by
  refine ⟨fun rest => rfl, ?_, fun e1 e2 e3 e4 e5 rest => rfl, ?_⟩
  · intro e rest he
    unfold scanAttempts
    rw [if_neg he]
  · intro errs k rest hlt hk
    have h := chunkRetry_ok_after_failures k rest errs 0 0 (by omega) hk
    simpa using h

/-- Witness for the amended C8: a lone device error escalates from the
scanning loop, and a streaming chunk that fails twice then reads 7 bytes
succeeds after exactly two stalls. -/
theorem rdf_retry_budget_witness :
    scanAttempts [.error .DEVICE_ERROR] = .error .DEVICE_ERROR ∧
    chunkRetry [.error .DEVICE_ERROR, .error .TIMEOUT, .ok 7] 0 0 =
      some (.ok (some 7), 2) := by
  refine ⟨rdf_retry_budget.2.1 .DEVICE_ERROR [] (by decide), ?_⟩
  have h := rdf_retry_budget.2.2.2 [.DEVICE_ERROR, .TIMEOUT] 7 [] (by decide) (by decide)
  simpa using h

/-- Claim C4, counterexample: the one-byte buffer `[0]` is accepted (at most
0x40 bytes, so no check runs), but appending 64 zero bytes crosses the
0x40-byte threshold and the MZ check now fails, so the extended buffer is
rejected.  Acceptance is therefore not preserved by appending bytes. -/
theorem pe_monotonicity_counterexample :
    validate_kernel_pe [0] = true ∧
    validate_kernel_pe ([0] ++ List.replicate 64 0) = false := by
  constructor
  · rfl
  · rfl

/-- Claim C4, amended: appending bytes preserves acceptance for every
accepted buffer that the validator has fully checked, i.e. one longer than
0x40 bytes whose `pe_offset + 6` lies strictly inside it (no header is
re-read, and every checked byte keeps its value under append). -/
theorem pe_accept_monotone (data extra : List Nat)
    (hacc : validate_kernel_pe data = true)
    (hlen : 0x40 < data.length)
    (hpe : readU32 data 0x3c + 6 < data.length) :
    validate_kernel_pe (data ++ extra) = true := by
  unfold validate_kernel_pe at hacc ⊢
  rw [if_pos hlen] at hacc
  have hlen2 : 0x40 < (data ++ extra).length := by
    simp only [List.length_append]; omega
  rw [if_pos hlen2]
  have h32 : readU32 (data ++ extra) 0x3c = readU32 data 0x3c :=
    readU32_append_left (by omega)
  have h0 : (data ++ extra).getD 0 0 = data.getD 0 0 :=
    getD_append_left_zero (by omega)
  have h1 : (data ++ extra).getD 1 0 = data.getD 1 0 :=
    getD_append_left_zero (by omega)
  have hp0 : (data ++ extra).getD (readU32 data 0x3c) 0 =
      data.getD (readU32 data 0x3c) 0 :=
    getD_append_left_zero (by omega)
  have hp1 : (data ++ extra).getD (readU32 data 0x3c + 1) 0 =
      data.getD (readU32 data 0x3c + 1) 0 :=
    getD_append_left_zero (by omega)
  have hm : readU16 (data ++ extra) (readU32 data 0x3c + 4) =
      readU16 data (readU32 data 0x3c + 4) :=
    readU16_append_left (by omega)
  rw [h32, h0, h1, hp0, hp1, hm]
  have hpe2 : readU32 data 0x3c + 6 < (data ++ extra).length := by
    simp only [List.length_append]; omega
  by_cases hmz : (data.getD 0 0 ≠ 0x4d ∨ data.getD 1 0 ≠ 0x5a)
  · rw [if_pos hmz] at hacc
    exact absurd hacc (by simp)
  · rw [if_neg hmz] at hacc ⊢
    rw [if_pos hpe] at hacc
    rw [if_pos hpe2]
    exact hacc

/-- Witness for the amended C4: a concrete 80-byte accepted PE image stays
accepted after appending three bytes. -/
theorem pe_accept_monotone_witness :
    validate_kernel_pe (([0x4d, 0x5a] ++ List.replicate 58 0 ++ [66, 0, 0, 0] ++
      [0, 0, 0x50, 0x45, 0, 0, 0x64, 0x86] ++ List.replicate 8 0) ++ [1, 2, 3]) = true :=
  pe_accept_monotone _ [1, 2, 3] (by decide) (by decide) (by decide)

/-- Claim C9: `ConfigView` construction does not require `total_size ≥ 16`;
with valid magic and version and a declared `total_size` below 16 the
construction succeeds, the atom iterator yields nothing, and every typed
accessor — both UUIDs and fs-types, the signature, and both kernel-params
accessors (which return `Ok(None)`) — comes back empty. -/
theorem rbc_small_total_size (utf8ok : List Nat → Bool) (data : List Nat)
    (hlen : 16 ≤ data.length) (hmagic : data.take 4 = RBC_MAGIC)
    (hver : readU16 data 4 = 1) (htot : readU32 data 6 < 16) :
    ConfigView_new data = .ok (data.take (readU32 data 6)) ∧
    atoms (data.take (readU32 data 6)) = [] ∧
    get_main_uuid (data.take (readU32 data 6)) = none ∧
    get_main_fs_type (data.take (readU32 data 6)) = none ∧
    get_main_kernel_params utf8ok (data.take (readU32 data 6)) = .ok none ∧
    get_recovery_uuid (data.take (readU32 data 6)) = none ∧
    get_recovery_fs_type (data.take (readU32 data 6)) = none ∧
    get_recovery_kernel_params utf8ok (data.take (readU32 data 6)) = .ok none ∧
    get_signature (data.take (readU32 data 6)) = none := by
  have hview : (data.take (readU32 data 6)).length < 16 := by
    rw [List.length_take]
    omega
  have hatoms : atoms (data.take (readU32 data 6)) = [] := by
    unfold atoms atomsFromAux
    rw [if_pos (by omega)]
  have hfind : ∀ t, find_atom (data.take (readU32 data 6)) t = none := by
    intro t
    unfold find_atom
    rw [hatoms]
    rfl
  refine ⟨?_, hatoms, ?_, ?_, ?_, ?_, ?_, ?_, ?_⟩
  · unfold ConfigView_new
    rw [if_neg (by omega), if_neg (by simp [hmagic]), if_neg (by simp [hver]),
      if_neg (by omega)]
  · unfold get_main_uuid; rw [hfind]; rfl
  · unfold get_main_fs_type; rw [hfind]; rfl
  · unfold get_main_kernel_params; rw [hfind]
  · unfold get_recovery_uuid; rw [hfind]; rfl
  · unfold get_recovery_fs_type; rw [hfind]; rfl
  · unfold get_recovery_kernel_params; rw [hfind]
  · unfold get_signature; rw [hfind]

/-- Witness for C9 at a 16-byte blob declaring `total_size = 0`. -/
theorem rbc_small_total_size_witness :
    ConfigView_new [0x52, 0x47, 0x4E, 0x21, 1, 0, 0, 0, 0, 0, 0, 0, 0, 0, 0, 0] =
      .ok [] ∧
    atoms ([0x52, 0x47, 0x4E, 0x21, 1, 0, 0, 0, 0, 0, 0, 0, 0, 0, 0, 0].take
      (readU32 [0x52, 0x47, 0x4E, 0x21, 1, 0, 0, 0, 0, 0, 0, 0, 0, 0, 0, 0] 6)) = [] := by
  have h := rbc_small_total_size (fun _ => true)
    [0x52, 0x47, 0x4E, 0x21, 1, 0, 0, 0, 0, 0, 0, 0, 0, 0, 0, 0]
    (by decide) (by decide) (by decide) (by decide)
  exact ⟨h.1, h.2.1⟩

/-- Witness for C5 with a concrete oracle whose root directory holds a Core
subvolume entry with tree id 257. -/
theorem subvolume_crossing_witness :
    boot_linux_lookup
      ⟨fun _ => .ok 999, fun _ _ _ => .ok (some (257, 132)), fun _ _ => .ok []⟩ 5 =
    afterCore
      ⟨fun _ => .ok 999, fun _ _ _ => .ok (some (257, 132)), fun _ _ => .ok []⟩ 999 256 :=
  subvolume_crossing _ 5 257 999 rfl rfl

end Rignite
